import Mathlib

/-!
Verification of `afcarl/lfd` against its specification.

Shallow embedding of two source files:
* `src/core/action_selection.py` — greedy action selection;
* `src/lfd/transfer/registration_transfer.py` — the decomposed
  registration-and-trajectory transfer coordinator and the two-step/unified
  strategies.

Real numbers of the Python code are modelled as rationals; the external
collaborators (registration factory, TPS solver, trajectory optimizer,
kinematics queries) are fields of a context structure, since they live
outside the two source files.
-/

namespace Lfd

/-! ### Greedy action selection (`src/core/action_selection.py`)

`GreedyActionSelection.plan_agenda` runs
`q_values, agenda = zip(*sorted([(q_value, action) for (action, q_value) in action2q_value.items()]))`
and returns `agenda, q_values`.  The oracle mapping `action2q_value` is a
dict, modelled as a list of (action, q_value) pairs; actions are names,
modelled as naturals.  Python sorts the `(q_value, action)` tuples
lexicographically.  When the dict is empty, `zip()` yields the empty list
and unpacking it into the two names raises `ValueError`; this fallible
unpacking is modelled with `Except`. -/

/-- Lexicographic order on `(q_value, action)` tuples, as Python compares
them in `sorted`. -/
def pairLe (x y : ℚ × ℕ) : Prop :=
  x.1 < y.1 ∨ (x.1 = y.1 ∧ x.2 ≤ y.2)

instance : DecidableRel pairLe := fun x y =>
  inferInstanceAs (Decidable (x.1 < y.1 ∨ (x.1 = y.1 ∧ x.2 ≤ y.2)))

instance : IsTotal (ℚ × ℕ) pairLe where
  total x y := by
    rcases lt_trichotomy x.1 y.1 with h | h | h
    · exact Or.inl (Or.inl h)
    · rcases Nat.le_total x.2 y.2 with h2 | h2
      · exact Or.inl (Or.inr ⟨h, h2⟩)
      · exact Or.inr (Or.inr ⟨h.symm, h2⟩)
    · exact Or.inr (Or.inl h)

instance : IsTrans (ℚ × ℕ) pairLe where
  trans x y z hxy hyz := by
    rcases hxy with h1 | ⟨e1, l1⟩
    · rcases hyz with h2 | ⟨e2, _⟩
      · exact Or.inl (h1.trans h2)
      · exact Or.inl (e2 ▸ h1)
    · rcases hyz with h2 | ⟨e2, l2⟩
      · exact Or.inl (e1 ▸ h2)
      · exact Or.inr ⟨e1.trans e2, l1.trans l2⟩

/-- `GreedyActionSelection.plan_agenda`: sort the `(q_value, action)` pairs
of the batch-cost oracle's mapping, then unzip into `agenda, q_values`.
The `Except.error` branch is Python's `ValueError` raised when unpacking
`zip(*sorted([]))` of an empty mapping into two names. -/
def plan_agenda (action2q_value : List (ℕ × ℚ)) :
    Except String (List ℕ × List ℚ) :=
  let s := List.insertionSort pairLe
    (action2q_value.map (fun aq => (aq.2, aq.1)))
  match s with
  | [] => Except.error "ValueError: need more than 0 values to unpack"
  | _ => Except.ok (s.map Prod.snd, s.map Prod.fst)

/-! ### Data model for the transfer coordinator
(`src/lfd/transfer/registration_transfer.py`)

3D points are rational triples; a gripper finger contributes a row of four
corner points per timestep.  `get_finger_pts_traj(robot, lr, traj)` returns a
dict `{finger_l: pts, finger_r: pts}` for the gripper of arm `lr`; it is a
kinematics collaborator outside the two source files, so it appears as
context fields (one per arm side), as do the registration factory, the
resampler, the fitted-warp transform and the trajectory optimizer. -/

/-- An arm or finger side, `'l'` or `'r'`. -/
inductive Side where
  | l
  | r
deriving DecidableEq, Inhabited

/-- A 3D point with rational coordinates. -/
abbrev Pt : Type := ℚ × ℚ × ℚ

/-- The four corner points of one gripper finger at one timestep. -/
abbrev PtRow : Type := List Pt

/-- Output of `sim_util.get_finger_pts_traj`: the per-timestep corner points
of the `l` finger and of the `r` finger of one gripper. -/
abbrev FingerPts : Type := List PtRow × List PtRow

/-- A joint trajectory: one list of joint values per timestep. -/
abbrev Traj : Type := List (List ℚ)

/-- Pointwise subtraction of 3D points. -/
def ptSub (p q : Pt) : Pt := (p.1 - q.1, p.2.1 - q.2.1, p.2.2 - q.2.2)

/-- Scale a 3D point. -/
def ptScale (a : ℚ) (p : Pt) : Pt := (a * p.1, a * p.2.1, a * p.2.2)

/-- Negate a 3D point. -/
def negPt (p : Pt) : Pt := (-p.1, -p.2.1, -p.2.2)

/-- Sum of absolute values of the three coordinates. -/
def ptAbsSum (p : Pt) : ℚ := |p.1| + |p.2.1| + |p.2.2|

/-- Elementwise difference of two point arrays (numpy broadcasting of `-`). -/
def arrSub (a b : List Pt) : List Pt := List.zipWith ptSub a b

/-- Elementwise scaling of a point array. -/
def arrScale (a : ℚ) (l : List Pt) : List Pt := l.map (ptScale a)

/-- Elementwise negation of a point array (numpy unary `-`). -/
def negArr (l : List Pt) : List Pt := l.map negPt

/-- `sum(sum(abs(x)))`: total absolute value over all rows and dimensions. -/
def arrAbsSum (l : List Pt) : ℚ := (l.map ptAbsSum).sum

/-- An `AugmentedTrajectory`: continuous joint motion plus the discrete
open/close-finger event sequences for each arm (`lr2open_finger_traj`,
`lr2close_finger_traj`). -/
structure AugTraj where
  armTraj : Traj
  openFingerL : List Bool
  openFingerR : List Bool
  closeFingerL : List Bool
  closeFingerR : List Bool
deriving DecidableEq, Inhabited

/-- A cost term of the trajectory-optimization request (`request["costs"]`). -/
inductive Cost where
  | joint_vel (coeffs : List ℚ)
  | collision (continuous : Bool) (coeffs : List ℚ) (dist_pen : List ℚ)
  | rel_pts_lambdas (lambdas : List Pt) (rel_xyzs : List Pt) (link : String)
      (timestep : ℚ) (pos_coeffs : List ℚ)
deriving DecidableEq, Inhabited

/-- The declarative optimization request handed to the trajectory optimizer. -/
structure Request where
  n_steps : ℕ
  manip : String
  start_fixed : Bool
  costs : List Cost
  init_info : Option Traj
deriving DecidableEq, Inhabited

/-- Context of one decomposed transfer: the demonstration data together with
the external collaborators (resampler, kinematics queries, TPS fit/transform,
trajectory optimizer) and the configuration constants of the transferer.
`warpedTau` composes `tps.tps_fit_decomp` at the fixed base correspondence
with `f.transform_points(tau_bd)`: its argument is the extra-target-offsets
array passed to the fit (the only fit input that varies), and its value is the
warp-transformed demonstration contact points. -/
structure Ctx where
  demoAugTraj : AugTraj
  resampleR : AugTraj → AugTraj
  demoAugTrajRs : AugTraj
  fingerPtsAugL : AugTraj → FingerPts
  fingerPtsAugR : AugTraj → FingerPts
  fingerPtsFullL : Traj → FingerPts
  fingerPtsFullR : Traj → FingerPts
  warpedTau : List Pt → List Pt
  solveTraj : Request → Traj
  initTraj : Traj
  manipName : String
  fingerRelPts : Side → List Pt
  fingerLinkName : Side → String
  gamma : ℚ
  beta_pos : ℚ
  use_collision_cost : Bool

/-- `DecompRegistrationAndTrajectoryTransferer.traj_to_points` (lines
184–199): hardcodes `active_lr = "r"` and `lr = 'r'`, so it optionally
resamples and then extracts the finger points of the right gripper only. -/
def traj_to_points (c : Ctx) (aug_traj : AugTraj) (resampling : Bool) :
    FingerPts :=
  let demo_aug_traj_rs := if resampling then c.resampleR aug_traj else aug_traj
  c.fingerPtsAugR demo_aug_traj_rs

/-- `DecompRegistrationAndTrajectoryTransferer.points_to_array` (lines
201–203): `np.r_[pts['l'], pts['r']]` stacked and reshaped to a flat
`(2*T*4, 3)` array of points. -/
def points_to_array (pts : FingerPts) : List Pt := (pts.1 ++ pts.2).flatten

/-- `np.zeros(tau_bd.shape)` for a point array. -/
def zerosLike (a : List Pt) : List Pt := a.map (fun _ => ((0 : ℚ), (0 : ℚ), (0 : ℚ)))

/-- `lambda_bd[:,0] = v`: overwrite the first spatial dimension of every row. -/
def setColumn0 (v : ℚ) (a : List Pt) : List Pt := a.map (fun p => (v, p.2.1, p.2.2))

/-- Dual-ascent step size `nu = 0.001` (line 407). -/
def nu : ℚ := 1 / 1000

/-- Iteration cap `max_iter = 20` (line 409). -/
def max_iter : ℕ := 20

/-- The base request built once before the loop (lines 369–393): the
joint-velocity smoothness cost with coefficient `gamma/(n_steps-1)` and, when
`use_collision_cost`, the continuous collision cost with coefficient `1000`
and distance `0.025`. -/
def base_request (c : Ctx) (n_steps : ℕ) : Request :=
  { n_steps := n_steps
    manip := c.manipName
    start_fixed := false
    costs := [Cost.joint_vel [c.gamma / ((n_steps : ℚ) - 1)]] ++
      (if c.use_collision_cost then [Cost.collision true [1000] [1 / 40]] else [])
    init_info := none }

/-- `range(0, m, 4)`. -/
def rangeStep4 (m : ℕ) : List ℕ := (List.range ((m + 3) / 4)).map (fun j => 4 * j)

/-- The sample steps `range(0, traj_dim*2, 4)` with
`traj_dim = int(lambda_bd.shape[0]/2)` (lines 427–428). -/
def sampleSteps (rows : ℕ) : List ℕ := rangeStep4 (2 * (rows / 2))

/-- The `rel_pts_lambdas` cost appended for sample step `i_step` (lines
429–447): finger `'l'` for the first half of the rows and `'r'` for the
second, lambdas `-lambda_bd[traj_step:traj_step+4,:]`, timestep
`traj_step/4`, and position weights `[beta_pos/n_steps]*4`. -/
def lambda_cost (c : Ctx) (n_steps : ℕ) (lambda_bd : List Pt) (i_step : ℕ) :
    Cost :=
  let traj_dim := lambda_bd.length / 2
  let finger_lr : Side := if i_step < traj_dim then Side.l else Side.r
  let traj_step : ℕ := if i_step < traj_dim then i_step else i_step - traj_dim
  Cost.rel_pts_lambdas (negArr ((lambda_bd.drop traj_step).take 4))
    (c.fingerRelPts finger_lr) (c.fingerLinkName finger_lr)
    ((traj_step : ℚ) / 4)
    (List.replicate 4 (c.beta_pos / (n_steps : ℚ)))

/-- All `rel_pts_lambdas` costs of one iteration, including the
`if start_fixed and traj_step==0: continue` guard (line 437). -/
def lambda_costs (c : Ctx) (start_fixed : Bool) (n_steps : ℕ)
    (lambda_bd : List Pt) : List Cost :=
  (sampleSteps lambda_bd.length).filterMap (fun i_step =>
    let traj_dim := lambda_bd.length / 2
    let traj_step : ℕ := if i_step < traj_dim then i_step else i_step - traj_dim
    if start_fixed ∧ traj_step = 0 then none
    else some (lambda_cost c n_steps lambda_bd i_step))

/-- The per-iteration request `request_i` (lines 415–447): a deep copy of the
base request with the current trajectory as initialization and the
lambda-shifted contact-following costs appended.  `start_fixed` is the
literal `False` set at line 341. -/
def request_i (c : Ctx) (n_steps : ℕ) (lambda_bd : List Pt) (cur_traj : Traj) :
    Request :=
  let base := base_request c n_steps
  { base with
    init_info := some cur_traj
    costs := base.costs ++ lambda_costs c false n_steps lambda_bd }

/-- Everything one iteration of the alternating loop computes. -/
structure IterTrace where
  lambdaBefore : List Pt
  trajBefore : Traj
  request : Request
  trajAfter : Traj
  warpFitOffsets : List Pt
  warpedPts : List Pt
  trajPts : List Pt
  trajDiff : List Pt
  absDiff : ℚ
  lambdaAfter : List Pt
deriving DecidableEq, Inhabited

/-- One iteration of the loop body (lines 412–496): build `request_i`, solve
the trajectory subproblem, refit the TPS warp with extra target offsets
`-lambda_bd` (line 481), transform the demonstration points with the
refitted warp, take the difference against the contact points achieved by
the new trajectory (right gripper, line 490), and apply the dual-ascent
update `lambda_bd - nu * traj_diff`. -/
def loopIter (c : Ctx) (n_steps : ℕ) (lambda_bd : List Pt) (cur_traj : Traj) :
    IterTrace :=
  let req := request_i c n_steps lambda_bd cur_traj
  let new_traj := c.solveTraj req
  let offsets := negArr lambda_bd
  let trajpts_tps := c.warpedTau offsets
  let trajpts_traj := points_to_array (c.fingerPtsFullR new_traj)
  let traj_diff := arrSub trajpts_traj trajpts_tps
  { lambdaBefore := lambda_bd
    trajBefore := cur_traj
    request := req
    trajAfter := new_traj
    warpFitOffsets := offsets
    warpedPts := trajpts_tps
    trajPts := trajpts_traj
    trajDiff := traj_diff
    absDiff := arrAbsSum traj_diff
    lambdaAfter := arrSub lambda_bd (arrScale nu traj_diff) }

/-- The `for itr in range(max_iter)` loop with its early `break` when
`abs_traj_diff < traj_diff_thresh` (lines 412–500), returning the recorded
iteration traces and the final `cur_traj`. -/
def loopGo (c : Ctx) (n_steps : ℕ) (thresh : ℚ) :
    ℕ → List Pt → Traj → List IterTrace × Traj
  | 0, _, cur_traj => ([], cur_traj)
  | fuel + 1, lambda_bd, cur_traj =>
    let tr := loopIter c n_steps lambda_bd cur_traj
    if tr.absDiff < thresh then ([tr], tr.trajAfter)
    else
      let rest := loopGo c n_steps thresh fuel tr.lambdaAfter tr.trajAfter
      (tr :: rest.1, rest.2)

/-- Modelled from the spec: `AugmentedTrajectory.create_from_full_traj` lives
in `lfd.demonstration.demonstration`, which is not under `src/`.  Per the
spec, the augmented trajectory is reconstructed from the given full joint
trajectory, and the open/close-finger event sequences passed to it are
carried through unmodified. -/
def create_from_full_traj (full_traj : Traj) (openL openR closeL closeR : List Bool) :
    AugTraj :=
  { armTraj := full_traj
    openFingerL := openL
    openFingerR := openR
    closeFingerL := closeL
    closeFingerR := closeR }

/-- The observable outcome of one decomposed transfer. -/
structure TransferResult where
  tau_bd : List Pt
  lambdaInit : List Pt
  initFitOffsets : List Pt
  traj_diff_thresh : ℚ
  iters : List IterTrace
  finalTraj : Traj
  aug_traj : AugTraj
deriving DecidableEq, Inhabited

/-- `DecompRegistrationAndTrajectoryTransferer.transfer` (lines 205–520):
extract the demonstration contact points of the right gripper (`tau_bd`),
initialize the dual variables as zeros with `lambda_bd[:,0] = .001`
(lines 213, 223), fit the initial warp with extra target offsets
`+lambda_bd` (line 233, recorded in `initFitOffsets`), set
`traj_diff_thresh = 1e-2 * lambda_bd.size` (line 408), run the alternating
loop for at most `max_iter` iterations, and rebuild the augmented
trajectory from the final joint trajectory plus the resampled
demonstration's open/close-finger events (line 506). -/
def transfer (c : Ctx) : TransferResult :=
  let tau_bd := points_to_array (traj_to_points c c.demoAugTraj true)
  let lambda_bd := setColumn0 (1 / 1000) (zerosLike tau_bd)
  let n_steps := c.initTraj.length
  let thresh := (1 / 100 : ℚ) * ((3 * lambda_bd.length : ℕ) : ℚ)
  let res := loopGo c n_steps thresh max_iter lambda_bd c.initTraj
  { tau_bd := tau_bd
    lambdaInit := lambda_bd
    initFitOffsets := lambda_bd
    traj_diff_thresh := thresh
    iters := res.1
    finalTraj := res.2
    aug_traj := create_from_full_traj res.2
      c.demoAugTrajRs.openFingerL c.demoAugTrajRs.openFingerR
      c.demoAugTrajRs.closeFingerL c.demoAugTrajRs.closeFingerR }

/-! ### Strategy construction (`__init__` type checks, lines 17–20, 41–57,
161–178) -/

/-- The class of the registration factory handed to a strategy. -/
inductive RegFactoryKind where
  | tpsRpm
  | otherFactory
deriving DecidableEq, Inhabited

/-- The class of the trajectory transferer handed to a strategy. -/
inductive TrajTransfererKind where
  | fingerTrajectory
  | otherTransferer
deriving DecidableEq, Inhabited

/-- The collaborators a constructed strategy stores. -/
structure StrategyCfg where
  registration_factory : RegFactoryKind
  trajectory_transferer : TrajTransfererKind
deriving DecidableEq, Inhabited

/-- The base `RegistrationAndTrajectoryTransferer.__init__` (lines 17–20)
stores the two collaborators without any type check;
`TwoStepRegistrationAndTrajectoryTransferer` defines no `__init__` of its
own and inherits it unchanged, so its construction never raises. -/
def twoStepInit (rf : RegFactoryKind) (tt : TrajTransfererKind) :
    Except String StrategyCfg :=
  Except.ok ⟨rf, tt⟩

/-- `UnifiedRegistrationAndTrajectoryTransferer.__init__` (lines 41–57):
raises `NotImplementedError` at construction unless the factory is a
`TpsRpmRegistrationFactory` and the transferer a
`FingerTrajectoryTransferer`. -/
def unifiedInit (rf : RegFactoryKind) (tt : TrajTransfererKind) :
    Except String StrategyCfg :=
  if rf ≠ RegFactoryKind.tpsRpm then
    Except.error "NotImplementedError: UnifiedRegistrationAndTrajectoryTransferer only supports TpsRpmRegistrationFactory"
  else if tt ≠ TrajTransfererKind.fingerTrajectory then
    Except.error "NotImplementedError: UnifiedRegistrationAndTrajectoryTransferer only supports FingerTrajectoryTransferer"
  else Except.ok ⟨rf, tt⟩

/-- `DecompRegistrationAndTrajectoryTransferer.__init__` (lines 161–178):
the same construction-time type checks as the unified strategy. -/
def decompInit (rf : RegFactoryKind) (tt : TrajTransfererKind) :
    Except String StrategyCfg :=
  if rf ≠ RegFactoryKind.tpsRpm then
    Except.error "NotImplementedError: DecompRegistrationAndTrajectoryTransferer only supports TpsRpmRegistrationFactory"
  else if tt ≠ TrajTransfererKind.fingerTrajectory then
    Except.error "NotImplementedError: DecompRegistrationAndTrajectoryTransferer only supports FingerTrajectoryTransferer"
  else Except.ok ⟨rf, tt⟩

/-! ### A concrete context used by witnesses and counterexamples -/

/-- A one-timestep demonstration trajectory. -/
def augTraj0 : AugTraj :=
  { armTraj := [[0]]
    openFingerL := [true]
    openFingerR := [false]
    closeFingerL := [false]
    closeFingerR := [true] }

/-- A small concrete transfer context: one corner point per finger, constant
collaborators.  The discrepancy stays at `2` every iteration, above the
threshold `3/50`, so the loop runs to the iteration cap. -/
def ctx0 : Ctx :=
  { demoAugTraj := augTraj0
    resampleR := fun t => t
    demoAugTrajRs := augTraj0
    fingerPtsAugL := fun _ => ([[((0 : ℚ), 0, 0)]], [[((0 : ℚ), 0, 0)]])
    fingerPtsAugR := fun _ => ([[((1 : ℚ), 2, 3)]], [[((4 : ℚ), 5, 6)]])
    fingerPtsFullL := fun _ => ([], [])
    fingerPtsFullR := fun _ => ([[((1 : ℚ), 0, 0)]], [[((0 : ℚ), 1, 0)]])
    warpedTau := fun _ => [((0 : ℚ), 0, 0), ((0 : ℚ), 0, 0)]
    solveTraj := fun _ => [[1], [2]]
    initTraj := [[0], [0]]
    manipName := "rightarm+r_gripper_l_finger_joint"
    fingerRelPts := fun _ => [((0 : ℚ), 0, 0)]
    fingerLinkName := fun s => match s with
      | Side.l => "r_gripper_l_finger_tip_link"
      | Side.r => "r_gripper_r_finger_tip_link"
    gamma := 1000
    beta_pos := 1000000
    use_collision_cost := false }

/-- A variant of `ctx0` whose warp transform already agrees with the achieved
contact points, so the discrepancy is `0` and the loop converges in its first
iteration. -/
def ctx1 : Ctx :=
  { ctx0 with warpedTau := fun _ => [((1 : ℚ), 0, 0), ((0 : ℚ), 1, 0)] }

end Lfd

namespace Lfd

/-! ### Helper lemmas -/

set_option maxRecDepth 100000

theorem headD_mem_of_ne_nil {α : Type} [Inhabited α] {l : List α}
    (h : l ≠ []) : l.headD default ∈ l := by
  cases l with
  | nil => exact absurd rfl h
  | cons a t => simp

theorem arrSub_arrScale_zip (q : ℚ) :
    ∀ (a d : List Pt), ∀ x ∈ (arrSub a (arrScale q d)).zip (a.zip d),
      x.1 = ptSub x.2.1 (ptScale q x.2.2)
  | [], d => by simp [arrSub]
  | p :: a, [] => by simp [arrSub, arrScale]
  | p :: a, r :: d => by
    intro x hx
    simp only [arrSub, arrScale, List.map_cons, List.zipWith_cons_cons,
      List.zip_cons_cons, List.mem_cons] at hx
    rcases hx with hx | hx
    · subst hx; rfl
    · exact arrSub_arrScale_zip q a d x hx

theorem lambda_costs_false (c : Ctx) (n_steps : ℕ) (lambda_bd : List Pt) :
    lambda_costs c false n_steps lambda_bd =
      (sampleSteps lambda_bd.length).map (lambda_cost c n_steps lambda_bd) := by
  simp only [lambda_costs, Bool.false_eq_true, false_and, if_false]
  rw [show (fun i_step => some (lambda_cost c n_steps lambda_bd i_step)) =
    some ∘ lambda_cost c n_steps lambda_bd from rfl]
  exact congrFun (List.filterMap_eq_map _) _

/-- Unfolding equation of `loopGo` in the base case. -/
theorem loopGo_zero (c : Ctx) (n_steps : ℕ) (thresh : ℚ) (lambda_bd : List Pt)
    (cur_traj : Traj) : loopGo c n_steps thresh 0 lambda_bd cur_traj = ([], cur_traj) := rfl

/-- Unfolding equation of `loopGo` when the iteration converges. -/
theorem loopGo_succ_pos {c : Ctx} {n_steps : ℕ} {thresh : ℚ} {m : ℕ}
    {lambda_bd : List Pt} {cur_traj : Traj}
    (hc : (loopIter c n_steps lambda_bd cur_traj).absDiff < thresh) :
    loopGo c n_steps thresh (m + 1) lambda_bd cur_traj =
      ([loopIter c n_steps lambda_bd cur_traj],
        (loopIter c n_steps lambda_bd cur_traj).trajAfter) := by
  simp only [loopGo]
  rw [if_pos hc]

/-- Unfolding equation of `loopGo` when the iteration does not converge. -/
theorem loopGo_succ_neg {c : Ctx} {n_steps : ℕ} {thresh : ℚ} {m : ℕ}
    {lambda_bd : List Pt} {cur_traj : Traj}
    (hc : ¬ (loopIter c n_steps lambda_bd cur_traj).absDiff < thresh) :
    loopGo c n_steps thresh (m + 1) lambda_bd cur_traj =
      (loopIter c n_steps lambda_bd cur_traj ::
        (loopGo c n_steps thresh m
          (loopIter c n_steps lambda_bd cur_traj).lambdaAfter
          (loopIter c n_steps lambda_bd cur_traj).trajAfter).1,
       (loopGo c n_steps thresh m
          (loopIter c n_steps lambda_bd cur_traj).lambdaAfter
          (loopIter c n_steps lambda_bd cur_traj).trajAfter).2) := by
  simp only [loopGo]
  rw [if_neg hc]

/-- Every recorded iteration trace is `loopIter` applied to some dual/trajectory
pair, so any property of all `loopIter` outputs holds of every trace. -/
theorem loopGo_mem_trace {c : Ctx} {n_steps : ℕ} {thresh : ℚ}
    {P : IterTrace → Prop}
    (hP : ∀ lambda_bd cur_traj, P (loopIter c n_steps lambda_bd cur_traj)) :
    ∀ fuel lambda_bd cur_traj,
      ∀ tr ∈ (loopGo c n_steps thresh fuel lambda_bd cur_traj).1, P tr := by
  intro fuel
  induction fuel with
  | zero => intro lam cur tr htr; simp [loopGo_zero] at htr
  | succ m ih =>
    intro lam cur tr htr
    by_cases hc : (loopIter c n_steps lam cur).absDiff < thresh
    · rw [loopGo_succ_pos hc] at htr
      rcases List.mem_singleton.mp htr with rfl
      exact hP _ _
    · rw [loopGo_succ_neg hc] at htr
      rcases List.mem_cons.mp htr with rfl | h
      · exact hP _ _
      · exact ih _ _ _ h

theorem loopGo_length_le (c : Ctx) (n_steps : ℕ) (thresh : ℚ) :
    ∀ fuel lambda_bd cur_traj,
      (loopGo c n_steps thresh fuel lambda_bd cur_traj).1.length ≤ fuel := by
  intro fuel
  induction fuel with
  | zero => intro lam cur; simp [loopGo_zero]
  | succ m ih =>
    intro lam cur
    by_cases hc : (loopIter c n_steps lam cur).absDiff < thresh
    · rw [loopGo_succ_pos hc]; simp
    · rw [loopGo_succ_neg hc]
      simpa using ih _ _

theorem loopGo_ne_nil (c : Ctx) (n_steps : ℕ) (thresh : ℚ)
    (fuel : ℕ) (hf : 0 < fuel) (lambda_bd : List Pt) (cur_traj : Traj) :
    (loopGo c n_steps thresh fuel lambda_bd cur_traj).1 ≠ [] := by
  cases fuel with
  | zero => exact absurd hf (by simp)
  | succ m =>
    by_cases hc : (loopIter c n_steps lambda_bd cur_traj).absDiff < thresh
    · rw [loopGo_succ_pos hc]; simp
    · rw [loopGo_succ_neg hc]; simp

theorem loopGo_dropLast (c : Ctx) (n_steps : ℕ) (thresh : ℚ) :
    ∀ fuel lambda_bd cur_traj,
      ∀ tr ∈ (loopGo c n_steps thresh fuel lambda_bd cur_traj).1.dropLast,
        thresh ≤ tr.absDiff := by
  intro fuel
  induction fuel with
  | zero => intro lam cur tr htr; simp [loopGo_zero] at htr
  | succ m ih =>
    intro lam cur tr htr
    by_cases hc : (loopIter c n_steps lam cur).absDiff < thresh
    · rw [loopGo_succ_pos hc] at htr; simp at htr
    · rw [loopGo_succ_neg hc] at htr
      rcases hrest : (loopGo c n_steps thresh m
          (loopIter c n_steps lam cur).lambdaAfter
          (loopIter c n_steps lam cur).trajAfter).1 with _ | ⟨a, t⟩
      · rw [hrest] at htr; simp at htr
      · rw [hrest] at htr
        rw [List.dropLast_cons_of_ne_nil (by simp)] at htr
        rcases List.mem_cons.mp htr with rfl | h
        · exact le_of_not_lt hc
        · exact ih _ _ tr (by rw [hrest]; exact h)

theorem loopGo_early_exit (c : Ctx) (n_steps : ℕ) (thresh : ℚ) :
    ∀ fuel lambda_bd cur_traj,
      (loopGo c n_steps thresh fuel lambda_bd cur_traj).1.length < fuel →
        ((loopGo c n_steps thresh fuel lambda_bd cur_traj).1.getLastD
          default).absDiff < thresh := by
  intro fuel
  induction fuel with
  | zero => intro lam cur h; simp [loopGo_zero] at h
  | succ m ih =>
    intro lam cur h
    by_cases hc : (loopIter c n_steps lam cur).absDiff < thresh
    · rw [loopGo_succ_pos hc]; simpa using hc
    · rw [loopGo_succ_neg hc] at h ⊢
      dsimp only at h ⊢
      rcases hrest : (loopGo c n_steps thresh m
          (loopIter c n_steps lam cur).lambdaAfter
          (loopIter c n_steps lam cur).trajAfter).1 with _ | ⟨a, t⟩
      · rw [hrest] at h
        simp only [List.length_cons, List.length_nil] at h
        have hm : 0 < m := by omega
        exact absurd hrest (loopGo_ne_nil c n_steps thresh m hm _ _)
      · have hlen : (loopGo c n_steps thresh m
            (loopIter c n_steps lam cur).lambdaAfter
            (loopIter c n_steps lam cur).trajAfter).1.length < m := by
          rw [hrest]
          rw [hrest] at h
          simp only [List.length_cons] at h ⊢
          omega
        have hih := ih _ _ hlen
        rw [hrest] at hih
        rw [List.getLastD_cons] at hih
        rw [List.getLastD_cons, List.getLastD_cons]
        exact hih

theorem loopGo_final_traj (c : Ctx) (n_steps : ℕ) (thresh : ℚ) :
    ∀ fuel lambda_bd cur_traj, 0 < fuel →
      (loopGo c n_steps thresh fuel lambda_bd cur_traj).2 =
        ((loopGo c n_steps thresh fuel lambda_bd cur_traj).1.getLastD
          default).trajAfter := by
  intro fuel
  induction fuel with
  | zero => intro lam cur h; simp at h
  | succ m ih =>
    intro lam cur _
    by_cases hc : (loopIter c n_steps lam cur).absDiff < thresh
    · rw [loopGo_succ_pos hc]; simp
    · rw [loopGo_succ_neg hc]
      dsimp only
      cases m with
      | zero => simp [loopGo_zero]
      | succ k =>
        have hne := loopGo_ne_nil c n_steps thresh (k + 1) (by simp)
          (loopIter c n_steps lam cur).lambdaAfter
          (loopIter c n_steps lam cur).trajAfter
        rcases hrest : (loopGo c n_steps thresh (k + 1)
            (loopIter c n_steps lam cur).lambdaAfter
            (loopIter c n_steps lam cur).trajAfter).1 with _ | ⟨a, t⟩
        · exact absurd hrest hne
        · have hih := ih (loopIter c n_steps lam cur).lambdaAfter
            (loopIter c n_steps lam cur).trajAfter (by simp)
          rw [hrest] at hih
          rw [List.getLastD_cons] at hih
          rw [List.getLastD_cons, List.getLastD_cons]
          exact hih

theorem transfer_iters (c : Ctx) :
    (transfer c).iters =
      (loopGo c c.initTraj.length (transfer c).traj_diff_thresh max_iter
        (transfer c).lambdaInit c.initTraj).1 := rfl

theorem transfer_final (c : Ctx) :
    (transfer c).finalTraj =
      (loopGo c c.initTraj.length (transfer c).traj_diff_thresh max_iter
        (transfer c).lambdaInit c.initTraj).2 := rfl

/-! ### Claim theorems -/

/-- C7: for every scene state whose batch-cost oracle returns a non-empty
action-to-cost mapping, `plan_agenda` returns (without raising) an agenda
that is a permutation of the full candidate action set together with the
costs, the costs in non-decreasing order, and every returned
(action, cost) pair taken verbatim from the oracle's mapping. -/
theorem greedy_plan_agenda_sorted_permutation
    (action2q_value : List (ℕ × ℚ)) (h : action2q_value ≠ []) :
    ∃ agenda q_values,
      plan_agenda action2q_value = Except.ok (agenda, q_values) ∧
      agenda.Perm (action2q_value.map Prod.fst) ∧
      q_values.Sorted (· ≤ ·) ∧
      ∀ p ∈ agenda.zip q_values, p ∈ action2q_value := by
  have hperm : (List.insertionSort pairLe
      (action2q_value.map (fun aq => (aq.2, aq.1)))).Perm
      (action2q_value.map (fun aq => (aq.2, aq.1))) :=
    List.perm_insertionSort _ _
  rcases hs : List.insertionSort pairLe
      (action2q_value.map (fun aq => (aq.2, aq.1))) with _ | ⟨a, t⟩
  · rw [hs] at hperm
    have hmap : action2q_value.map (fun aq => (aq.2, aq.1)) = [] :=
      hperm.symm.eq_nil
    exact absurd (List.map_eq_nil_iff.mp hmap) h
  · rw [hs] at hperm
    refine ⟨(a :: t).map Prod.snd, (a :: t).map Prod.fst, ?_, ?_, ?_, ?_⟩
    · simp only [plan_agenda]
      rw [hs]
    · have h1 := hperm.map Prod.snd
      have h2 : (action2q_value.map (fun aq => (aq.2, aq.1))).map Prod.snd =
          action2q_value.map Prod.fst := by
        rw [List.map_map]; rfl
      exact h2 ▸ h1
    · have hsorted : List.Sorted pairLe (a :: t) :=
        hs ▸ List.sorted_insertionSort pairLe _
      exact List.Pairwise.map Prod.fst
        (fun x y hxy => by
          rcases hxy with h1 | ⟨h1, _⟩
          · exact le_of_lt h1
          · exact le_of_eq h1) hsorted
    · intro p hp
      rw [List.zip_map'] at hp
      rcases List.mem_map.mp hp with ⟨x, hx, rfl⟩
      have hxm : x ∈ action2q_value.map (fun aq => (aq.2, aq.1)) :=
        hperm.mem_iff.mp hx
      rcases List.mem_map.mp hxm with ⟨aq, haq, rfl⟩
      simpa using haq

/-- Witness for C7: a concrete two-action mapping. -/
theorem greedy_plan_agenda_sorted_permutation_witness :
    ([((5 : ℕ), (2 : ℚ)), (7, 1)] : List (ℕ × ℚ)) ≠ [] ∧
    (∃ agenda q_values,
      plan_agenda [((5 : ℕ), (2 : ℚ)), (7, 1)] = Except.ok (agenda, q_values) ∧
      agenda.Perm (([((5 : ℕ), (2 : ℚ)), (7, 1)] : List (ℕ × ℚ)).map Prod.fst) ∧
      q_values.Sorted (· ≤ ·) ∧
      ∀ p ∈ agenda.zip q_values, p ∈ ([((5 : ℕ), (2 : ℚ)), (7, 1)] : List (ℕ × ℚ))) :=
  ⟨by decide, greedy_plan_agenda_sorted_permutation _ (by decide)⟩

/-- C8 (code bug): with an empty candidate action set the batch-cost oracle
returns an empty mapping, `sorted([])` is `[]`, `zip(*[])` is `[]`, and the
unpacking `q_values, agenda = zip(...)` raises `ValueError` instead of
returning an empty agenda and an empty cost list. -/
theorem greedy_plan_agenda_empty_raises :
    plan_agenda [] =
      Except.error "ValueError: need more than 0 values to unpack" := rfl

/-- C6 counterexample: constructing the two-step strategy with an
incompatible registration factory and an incompatible trajectory transferer
succeeds — the inherited base constructor performs no type check, so no
configuration error is raised at construction. -/
theorem strategy_twostep_no_check_counterexample :
    twoStepInit RegFactoryKind.otherFactory TrajTransfererKind.otherTransferer =
      Except.ok ⟨RegFactoryKind.otherFactory, TrajTransfererKind.otherTransferer⟩ := rfl

/-- C6 (amended): the unified and the decomposed strategies raise a
configuration error immediately at construction exactly when the
registration factory or the trajectory transferer has an incompatible type;
the two-step strategy performs no such check and always constructs
successfully. -/
theorem strategy_init_type_checks (rf : RegFactoryKind) (tt : TrajTransfererKind) :
    ((∃ cfg, unifiedInit rf tt = Except.ok cfg) ↔
      rf = RegFactoryKind.tpsRpm ∧ tt = TrajTransfererKind.fingerTrajectory) ∧
    ((∃ cfg, decompInit rf tt = Except.ok cfg) ↔
      rf = RegFactoryKind.tpsRpm ∧ tt = TrajTransfererKind.fingerTrajectory) ∧
    twoStepInit rf tt = Except.ok ⟨rf, tt⟩ := by
  cases rf <;> cases tt <;> simp [unifiedInit, decompInit, twoStepInit]

/-- C1 counterexample: at the concrete context `ctx0` the first loop
iteration passes `-lambda`, not `+lambda`, as the soft-constraint offsets of
the warp refit — the offsets are the elementwise negation of the current
dual variables and differ from them, refuting the claimed opposite-sign
relation between refit and request. -/
theorem decomp_warp_refit_sign_counterexample :
    (transfer ctx0).iters ≠ [] ∧
    ((transfer ctx0).iters.headD default).warpFitOffsets =
      negArr (((transfer ctx0).iters.headD default).lambdaBefore) ∧
    ((transfer ctx0).iters.headD default).warpFitOffsets ≠
      ((transfer ctx0).iters.headD default).lambdaBefore := by
  with_unfolding_all decide

/-- C1 (amended): in every iteration of the alternating loop the dual
variable enters the warp refit with the SAME sign it has in the trajectory
request: the soft-constraint offsets passed to the spline refit are
`-lambda`, and every contact-following cost of the same iteration's request
carries a `-lambda` slice as well; only the initialization fit before the
loop receives `+lambda`. -/
theorem decomp_warp_refit_sign (c : Ctx) :
    (transfer c).initFitOffsets = (transfer c).lambdaInit ∧
    ∀ tr ∈ (transfer c).iters,
      tr.warpFitOffsets = negArr tr.lambdaBefore ∧
      ∀ lams rel link ts pc,
        Cost.rel_pts_lambdas lams rel link ts pc ∈ tr.request.costs →
        ∃ k, lams = negArr ((tr.lambdaBefore.drop k).take 4) := by
  refine ⟨rfl, ?_⟩
  intro tr htr
  rw [transfer_iters] at htr
  refine loopGo_mem_trace (P := fun tr =>
    tr.warpFitOffsets = negArr tr.lambdaBefore ∧
    ∀ lams rel link ts pc,
      Cost.rel_pts_lambdas lams rel link ts pc ∈ tr.request.costs →
      ∃ k, lams = negArr ((tr.lambdaBefore.drop k).take 4))
    ?_ max_iter _ _ tr htr
  intro lam cur
  refine ⟨rfl, ?_⟩
  intro lams rel link ts pc hmem
  dsimp only [loopIter, request_i, base_request] at hmem ⊢
  rcases List.mem_append.mp hmem with h1 | h1
  · rcases List.mem_append.mp h1 with h2 | h2
    · simp at h2
    · by_cases hcol : c.use_collision_cost
      · rw [if_pos hcol] at h2; simp at h2
      · rw [if_neg hcol] at h2; simp at h2
  · rw [lambda_costs_false] at h1
    rcases List.mem_map.mp h1 with ⟨i_step, _, heq⟩
    dsimp only [lambda_cost] at heq
    rcases Cost.rel_pts_lambdas.inj heq with ⟨h3, -⟩
    exact ⟨_, h3.symm⟩

/-- Witness for C1's amended theorem at `ctx1`'s first iteration. -/
theorem decomp_warp_refit_sign_witness :
    ((transfer ctx1).iters.headD default).warpFitOffsets =
      negArr (((transfer ctx1).iters.headD default).lambdaBefore) :=
  ((decomp_warp_refit_sign ctx1).2 ((transfer ctx1).iters.headD default)
    (headD_mem_of_ne_nil (by with_unfolding_all decide))).1

/-- C2: every loop iteration computes the per-element discrepancy as the
contact points achieved by the new candidate trajectory (right gripper)
minus the warp-transformed demonstration points, sums it in absolute value
over all samples and dimensions, and performs the dual update
`lambda ← lambda − 0.001 * traj_diff` elementwise with the fixed step size
`0.001`. -/
theorem decomp_discrepancy_dual_update (c : Ctx) :
    ∀ tr ∈ (transfer c).iters,
      tr.trajDiff = arrSub (points_to_array (c.fingerPtsFullR tr.trajAfter))
        (c.warpedTau tr.warpFitOffsets) ∧
      tr.absDiff = (tr.trajDiff.map (fun p => |p.1| + |p.2.1| + |p.2.2|)).sum ∧
      tr.lambdaAfter = arrSub tr.lambdaBefore (arrScale (1 / 1000) tr.trajDiff) ∧
      ∀ x ∈ tr.lambdaAfter.zip (tr.lambdaBefore.zip tr.trajDiff),
        x.1 = ptSub x.2.1 (ptScale (1 / 1000) x.2.2) := by
  intro tr htr
  rw [transfer_iters] at htr
  refine loopGo_mem_trace (P := fun tr =>
    tr.trajDiff = arrSub (points_to_array (c.fingerPtsFullR tr.trajAfter))
      (c.warpedTau tr.warpFitOffsets) ∧
    tr.absDiff = (tr.trajDiff.map (fun p => |p.1| + |p.2.1| + |p.2.2|)).sum ∧
    tr.lambdaAfter = arrSub tr.lambdaBefore (arrScale (1 / 1000) tr.trajDiff) ∧
    ∀ x ∈ tr.lambdaAfter.zip (tr.lambdaBefore.zip tr.trajDiff),
      x.1 = ptSub x.2.1 (ptScale (1 / 1000) x.2.2))
    ?_ max_iter _ _ tr htr
  intro lam cur
  refine ⟨rfl, rfl, rfl, ?_⟩
  intro x hx
  exact arrSub_arrScale_zip (1 / 1000) lam _ x hx

/-- Witness for C2 at `ctx1`'s first iteration. -/
theorem decomp_discrepancy_dual_update_witness :
    ((transfer ctx1).iters.headD default).lambdaAfter =
      arrSub ((transfer ctx1).iters.headD default).lambdaBefore
        (arrScale (1 / 1000) ((transfer ctx1).iters.headD default).trajDiff) :=
  (decomp_discrepancy_dual_update ctx1 ((transfer ctx1).iters.headD default)
    (headD_mem_of_ne_nil (by with_unfolding_all decide))).2.2.1

/-- C3: the alternating loop always runs at least one and at most
`max_iter = 20` iterations (the transfer is a total function, so no
exception escapes); the threshold is `1e-2` times the number of
dual-variable entries (`3` per sample row); every iteration before the last
had discrepancy at or above the threshold; if the loop stopped before the
cap then the last iteration's discrepancy fell below the threshold (early
exit exactly on convergence, otherwise the cap is the only exit); and the
returned trajectory is the last iteration's candidate. -/
theorem decomp_loop_termination (c : Ctx) :
    (transfer c).iters.length ≤ max_iter ∧
    max_iter = 20 ∧
    (transfer c).iters ≠ [] ∧
    (transfer c).traj_diff_thresh =
      (1 / 100 : ℚ) * ((3 * (transfer c).lambdaInit.length : ℕ) : ℚ) ∧
    (∀ tr ∈ (transfer c).iters.dropLast,
      (transfer c).traj_diff_thresh ≤ tr.absDiff) ∧
    ((transfer c).iters.length < max_iter →
      ((transfer c).iters.getLastD default).absDiff <
        (transfer c).traj_diff_thresh) ∧
    (transfer c).finalTraj = ((transfer c).iters.getLastD default).trajAfter := by
  refine ⟨?_, rfl, ?_, rfl, ?_, ?_, ?_⟩
  · rw [transfer_iters]
    exact loopGo_length_le c _ _ max_iter _ _
  · rw [transfer_iters]
    exact loopGo_ne_nil c _ _ max_iter (by decide) _ _
  · intro tr htr
    rw [transfer_iters] at htr
    exact loopGo_dropLast c _ _ max_iter _ _ tr htr
  · rw [transfer_iters]
    exact loopGo_early_exit c _ _ max_iter _ _
  · rw [transfer_final, transfer_iters]
    exact loopGo_final_traj c _ _ max_iter _ _ (by decide)

/-- Witness for C3 at the converging context `ctx1`: the loop exits after
its first iteration, before the cap, with the discrepancy below the
threshold. -/
theorem decomp_loop_termination_witness :
    (transfer ctx1).iters.length < max_iter ∧
    ((transfer ctx1).iters.getLastD default).absDiff <
      (transfer ctx1).traj_diff_thresh :=
  ⟨by with_unfolding_all decide,
    (decomp_loop_termination ctx1).2.2.2.2.2.1 (by with_unfolding_all decide)⟩

/-- C4 counterexample: at `ctx0` the initial dual variables are
`(.001, 0, 0)` for every sample — the bias sits only in the first spatial
dimension while dimensions 1 and 2 start at zero, so the dual variables are
not initialized with the same non-zero bias in every spatial dimension. -/
theorem decomp_lambda_init_counterexample :
    (transfer ctx0).lambdaInit ≠ [] ∧
    ((transfer ctx0).lambdaInit.headD default).1 = 1 / 1000 ∧
    ((transfer ctx0).lambdaInit.headD default).2.1 = 0 ∧
    ((transfer ctx0).lambdaInit.headD default).2.1 ≠
      ((transfer ctx0).lambdaInit.headD default).1 := by
  with_unfolding_all decide

/-- C4 (amended): before the first warp fit the dual variables are
initialized to zeros with the small fixed bias `.001` written into the
FIRST spatial dimension only — every sample starts at `(.001, 0, 0)`, the
same non-zero vector for every sample but not the same bias in every
dimension; the initial warp fit then receives exactly these biased duals. -/
theorem decomp_lambda_init (c : Ctx) :
    (∀ p ∈ (transfer c).lambdaInit, p = ((1 / 1000 : ℚ), (0 : ℚ), (0 : ℚ))) ∧
    (transfer c).lambdaInit.length = (transfer c).tau_bd.length ∧
    (transfer c).initFitOffsets = (transfer c).lambdaInit := by
  refine ⟨?_, ?_, rfl⟩
  · intro p hp
    have he : (transfer c).lambdaInit =
        setColumn0 (1 / 1000) (zerosLike (transfer c).tau_bd) := rfl
    rw [he] at hp
    simp only [setColumn0, zerosLike, List.map_map, List.mem_map,
      Function.comp] at hp
    rcases hp with ⟨q, _, rfl⟩
    rfl
  · have he : (transfer c).lambdaInit =
        setColumn0 (1 / 1000) (zerosLike (transfer c).tau_bd) := rfl
    rw [he]
    simp [setColumn0, zerosLike]

/-- Witness for C4's amended theorem at `ctx0`. -/
theorem decomp_lambda_init_witness :
    (transfer ctx0).lambdaInit.headD default = ((1 / 1000 : ℚ), (0 : ℚ), (0 : ℚ)) :=
  (decomp_lambda_init ctx0).1 ((transfer ctx0).lambdaInit.headD default)
    (headD_mem_of_ne_nil (by with_unfolding_all decide))

/-- C5: every per-iteration optimization request contains the
joint-velocity smoothness cost with coefficient `gamma/(n_steps-1)` and,
for every contact-point sample step, a contact-following cost whose targets
are shifted by `-lambda` (the negated four-row slice of the dual variables
at that sample) and whose position weights are `beta_pos/n_steps`,
replicated over the four corner points. -/
theorem decomp_request_contents (c : Ctx) :
    ∀ tr ∈ (transfer c).iters,
      Cost.joint_vel [c.gamma / ((c.initTraj.length : ℚ) - 1)] ∈
        tr.request.costs ∧
      ∀ i_step ∈ sampleSteps tr.lambdaBefore.length,
        Cost.rel_pts_lambdas
          (negArr ((tr.lambdaBefore.drop
            (if i_step < tr.lambdaBefore.length / 2 then i_step
              else i_step - tr.lambdaBefore.length / 2)).take 4))
          (c.fingerRelPts
            (if i_step < tr.lambdaBefore.length / 2 then Side.l else Side.r))
          (c.fingerLinkName
            (if i_step < tr.lambdaBefore.length / 2 then Side.l else Side.r))
          (((if i_step < tr.lambdaBefore.length / 2 then i_step
              else i_step - tr.lambdaBefore.length / 2 : ℕ) : ℚ) / 4)
          (List.replicate 4 (c.beta_pos / (c.initTraj.length : ℚ))) ∈
          tr.request.costs := by
  intro tr htr
  rw [transfer_iters] at htr
  refine loopGo_mem_trace (P := fun tr =>
    Cost.joint_vel [c.gamma / ((c.initTraj.length : ℚ) - 1)] ∈
      tr.request.costs ∧
    ∀ i_step ∈ sampleSteps tr.lambdaBefore.length,
      Cost.rel_pts_lambdas
        (negArr ((tr.lambdaBefore.drop
          (if i_step < tr.lambdaBefore.length / 2 then i_step
            else i_step - tr.lambdaBefore.length / 2)).take 4))
        (c.fingerRelPts
          (if i_step < tr.lambdaBefore.length / 2 then Side.l else Side.r))
        (c.fingerLinkName
          (if i_step < tr.lambdaBefore.length / 2 then Side.l else Side.r))
        (((if i_step < tr.lambdaBefore.length / 2 then i_step
            else i_step - tr.lambdaBefore.length / 2 : ℕ) : ℚ) / 4)
        (List.replicate 4 (c.beta_pos / (c.initTraj.length : ℚ))) ∈
        tr.request.costs)
    ?_ max_iter _ _ tr htr
  intro lam cur
  constructor
  · dsimp only [loopIter, request_i, base_request]
    simp
  · intro i_step hi
    dsimp only [loopIter, request_i, base_request] at hi ⊢
    rw [lambda_costs_false]
    refine List.mem_append_right _ ?_
    exact List.mem_map.mpr ⟨i_step, hi, rfl⟩

/-- Witness for C5 at `ctx1`'s first iteration. -/
theorem decomp_request_contents_witness :
    Cost.joint_vel [ctx1.gamma / ((ctx1.initTraj.length : ℚ) - 1)] ∈
      ((transfer ctx1).iters.headD default).request.costs :=
  (decomp_request_contents ctx1 ((transfer ctx1).iters.headD default)
    (headD_mem_of_ne_nil (by with_unfolding_all decide))).1

/-- C9: the augmented trajectory returned by the decomposed transfer is
reconstructed from the final optimized joint trajectory, and the
(resampled) demonstration's open/close-finger event sequences are carried
through unmodified into the output. -/
theorem decomp_output_events (c : Ctx) :
    (transfer c).aug_traj.armTraj = (transfer c).finalTraj ∧
    (transfer c).aug_traj.openFingerL = c.demoAugTrajRs.openFingerL ∧
    (transfer c).aug_traj.openFingerR = c.demoAugTrajRs.openFingerR ∧
    (transfer c).aug_traj.closeFingerL = c.demoAugTrajRs.closeFingerL ∧
    (transfer c).aug_traj.closeFingerR = c.demoAugTrajRs.closeFingerR :=
  ⟨rfl, rfl, rfl, rfl, rfl⟩

/-- C10: the decomposed transfer extracts contact points from the right
gripper only: `traj_to_points` hardcodes the right arm, and the whole
transfer outcome is invariant under arbitrary replacement of the
left-gripper kinematics collaborators, so left-arm contact points never
enter the dual variables or the discrepancy. -/
theorem decomp_right_gripper_only (c : Ctx) (gAug : AugTraj → FingerPts)
    (gFull : Traj → FingerPts) :
    traj_to_points c c.demoAugTraj true =
      c.fingerPtsAugR (c.resampleR c.demoAugTraj) ∧
    transfer { c with fingerPtsAugL := gAug, fingerPtsFullL := gFull } =
      transfer c :=
  ⟨rfl, rfl⟩

end Lfd
